import Mathlib

/-!
Verification model of the `kbsim` binary (`src/bin/kbsim.rs`): a CLI that
simulates a HID keyboard by writing HID packets to a device file, either from
a command-line string (batch mode) or by relaying raw terminal input
(interactive mode).

The model is a shallow embedding: the `main` function's control flow is
translated into pure Lean functions that produce a trace of observable events
(sleeps, writes, diagnostics, raw-mode transitions) together with an outcome,
parameterized by an environment supplying the results of each I/O call.
-/

deriving instance DecidableEq for Except

namespace Kbsim

/-- Bytes are modelled as naturals; all byte values produced by the program
are below 256. -/
abbrev Byte := Nat

/-- Errors of the `keyboard_layouts` encoding library. -/
inductive EncErr where
  | unknownLayout (name : String)
  | unsupportedCharacter (c : Char) (pos : Nat)
deriving DecidableEq

/-- An I/O error: either an OS-level error (abstracted by a code) or the
`ErrorKind::Other` error that `main` builds from a formatted encoding error
(`Error::new(ErrorKind::Other, format!("{}", e))`). -/
inductive IOErr where
  | os (code : Nat)
  | encodeFailed (e : EncErr)
deriving DecidableEq

/-- A key chord: (modifier bitmask, scancode). -/
abbrev KeyChord := Nat × Nat

/-- A layout table: character to optional key chord. -/
abbrev LayoutTable := Char → Option KeyChord

/-- The layout registry of the `keyboard_layouts` crate: layout name to
optional layout table. -/
abbrev Registry := String → Option LayoutTable

/-- Modelled from the spec: `keyboard_layouts::HID_PACKET_LEN`, the fixed HID
boot-keyboard report length — 1 modifier byte, 1 reserved byte, 6 scancode
slots. The crate is an external dependency, not under `src/`. -/
def HID_PACKET_LEN : Nat := 8

/-- Modelled from the spec: the press report for a key chord — modifier mask
byte, reserved zero byte, scancode in the first slot, remaining slots zero. -/
def pressReport (kc : KeyChord) : List Byte :=
  [kc.1, 0, kc.2, 0, 0, 0, 0, 0]

/-- Modelled from the spec: the all-zero release report emitted after every
press report. -/
def releaseReport : List Byte :=
  [0, 0, 0, 0, 0, 0, 0, 0]

/-- Modelled from the spec: the character loop of
`keyboard_layouts::string_to_hid_packets` — for each character in order, look
up its key chord (failing fast with `UnsupportedCharacter` at its position),
and emit a press report followed by a release report. -/
def encodeChars (table : LayoutTable) : List Char → Nat → Except EncErr (List Byte)
  | [], _ => .ok []
  | c :: cs, pos =>
    match table c with
    | none => .error (.unsupportedCharacter c pos)
    | some kc =>
      (encodeChars table cs (pos + 1)).map
        (fun rest => pressReport kc ++ releaseReport ++ rest)

/-- Modelled from the spec: `keyboard_layouts::string_to_hid_packets` — resolve
the layout name in the registry (failing with `UnknownLayout`), then encode the
text character by character into a flat byte vector of HID packets. The crate
is an external dependency, not under `src/`. -/
def string_to_hid_packets (registry : Registry) (layoutName : String)
    (text : String) : Except EncErr (List Byte) :=
  match registry layoutName with
  | none => .error (.unknownLayout layoutName)
  | some table => encodeChars table text.data 0

/-- A UTF-8 continuation byte: `0x80 ≤ b < 0xC0`. -/
def isCont (b : Byte) : Bool := 0x80 ≤ b && b < 0xC0

/-- Constraint on the first continuation byte of a 3-byte UTF-8 sequence
(excluding overlong encodings and surrogates), as validated by
`std::str::from_utf8`. -/
def cont3ok (b c1 : Byte) : Bool :=
  if b = 0xE0 then 0xA0 ≤ c1 && c1 < 0xC0
  else if b = 0xED then 0x80 ≤ c1 && c1 < 0xA0
  else isCont c1

/-- Constraint on the first continuation byte of a 4-byte UTF-8 sequence
(excluding overlong encodings and code points above `0x10FFFF`), as validated
by `std::str::from_utf8`. -/
def cont4ok (b c1 : Byte) : Bool :=
  if b = 0xF0 then 0x90 ≤ c1 && c1 < 0xC0
  else if b = 0xF4 then 0x80 ≤ c1 && c1 < 0x90
  else isCont c1

/-- `std::str::from_utf8` on a byte slice: `some` of the decoded characters
when the bytes are valid UTF-8, `none` otherwise (truncated sequences,
overlong encodings, surrogates, out-of-range leads all rejected). -/
def utf8Decode : List Byte → Option (List Char)
  | [] => some []
  | b :: rest =>
    if b < 0x80 then
      (utf8Decode rest).map (fun cs => Char.ofNat b :: cs)
    else if b < 0xC2 then none
    else if b < 0xE0 then
      match rest with
      | c1 :: rest2 =>
        if isCont c1 then
          (utf8Decode rest2).map
            (fun cs => Char.ofNat ((b - 0xC0) * 0x40 + (c1 - 0x80)) :: cs)
        else none
      | [] => none
    else if b < 0xF0 then
      match rest with
      | c1 :: c2 :: rest3 =>
        if cont3ok b c1 && isCont c2 then
          (utf8Decode rest3).map
            (fun cs =>
              Char.ofNat ((b - 0xE0) * 0x1000 + (c1 - 0x80) * 0x40 + (c2 - 0x80)) :: cs)
        else none
      | _ => none
    else if b < 0xF5 then
      match rest with
      | c1 :: c2 :: c3 :: rest4 =>
        if cont4ok b c1 && isCont c2 && isCont c3 then
          (utf8Decode rest4).map
            (fun cs =>
              Char.ofNat ((b - 0xF0) * 0x40000 + (c1 - 0x80) * 0x1000 +
                (c2 - 0x80) * 0x40 + (c3 - 0x80)) :: cs)
        else none
      | _ => none
    else none

/-- Structural worker for `chunksOf`: the fuel bounds the number of chunks
produced and is at least the list length at the initial call (each chunk
consumes at least one element when `k > 0`). -/
def chunksOfFuel (k : Nat) : Nat → List Byte → List (List Byte)
  | _, [] => []
  | 0, _ => []
  | fuel + 1, l => l.take k :: chunksOfFuel k fuel (l.drop k)

/-- Rust's slice `chunks(k)`: split a list into consecutive chunks of length
`k`, the last chunk possibly shorter. (`k = 0` panics in Rust; here it yields
`[]`, and the program only ever uses `k = HID_PACKET_LEN`.) -/
def chunksOf (k : Nat) (l : List Byte) : List (List Byte) :=
  if k = 0 then [] else chunksOfFuel k l.length l

/-- An observable event of a run of `main`, in order of occurrence. -/
inductive Event where
  /-- `println!("{}", l)` over `available_layouts()` (the `list` branch). -/
  | printLayouts
  /-- `thread::sleep(Duration::from_secs(n))` (batch start delay). -/
  | sleepSecs (n : Nat)
  /-- `thread::sleep(Duration::from_millis(n))` (batch cooldown). -/
  | sleepMillis (n : Nat)
  /-- `fs::write(&hid_file, packet)` in the batch loop. -/
  | fsWrite (bytes : List Byte)
  /-- `eprintln!("Reading from stdin")`. -/
  | diagReading
  /-- `OpenOptions::new().write(true).open(hid_file)`. -/
  | openHid
  /-- `term.act(Action::EnableRawMode)`. -/
  | enableRaw
  /-- `term.act(Action::DisableRawMode)`. -/
  | disableRaw
  /-- `term.write(&buf[..n])` — local echo of the chunk's bytes. -/
  | echo (bytes : List Byte)
  /-- `term.flush()`. -/
  | echoFlush
  /-- `hid_file.write(packet)` in the interactive loop. -/
  | devWrite (bytes : List Byte)
  /-- `hid_file.flush()` in the interactive loop. -/
  | devFlush
  /-- `eprintln!("Could not decode character {} {:?}", e, &buf)` — the whole
  128-byte buffer is printed. -/
  | decodeDiag (buf : List Byte)
deriving DecidableEq

/-- The environment supplying the result of each I/O call the program makes.
Write calls return the number of bytes the sink accepted (`io::Write::write`);
`fs::write` has write-all semantics and returns no count. -/
structure Env where
  fsWriteRes : List Byte → Except IOErr Unit
  openRes : Except IOErr Unit
  termWriteRes : List Byte → Except IOErr Nat
  termFlushRes : Except IOErr Unit
  hidWriteRes : List Byte → Except IOErr Nat
  hidFlushRes : Except IOErr Unit

/-- Final outcome of a run of `main`: returned `Ok(())`, returned `Err(e)`, or
(interactive mode only) still blocked waiting for more input than the supplied
read list provides. -/
inductive Outcome where
  | ok
  | err (e : IOErr)
  | blocked
deriving DecidableEq

/-- How the interactive `while let` loop ended: `break` on Ctrl-C, the read
returning `Err` (which merely falsifies the `while let` pattern), an error
propagating out of the loop body via `?`, or the supplied reads running out
while the loop would still be blocked reading. -/
inductive LoopExit where
  | brk
  | readEnd
  | fatal (e : IOErr)
  | blocked
deriving DecidableEq

/-- Result of one iteration of the interactive loop body: continue with the
updated buffer (having emitted some events), `break`, or propagate an error via
`?` (having emitted some events). -/
inductive StepResult where
  | cont (buf : List Byte) (events : List Event)
  | brk
  | fatal (e : IOErr) (events : List Event)
deriving DecidableEq

/-- The events a step emitted. -/
def StepResult.events : StepResult → List Event
  | .cont _ evs => evs
  | .brk => []
  | .fatal _ evs => evs

/-- The inner packet loop of interactive mode: for each packet,
`hid_file.write(packet)?` then `hid_file.flush()?`; an error stops the loop
and is returned for propagation. The count returned by a successful write is
discarded. -/
def streamPackets (env : Env) : List (List Byte) → List Event × Option IOErr
  | [] => ([], none)
  | p :: ps =>
    match env.hidWriteRes p with
    | .error e => ([.devWrite p], some e)
    | .ok _ =>
      match env.hidFlushRes with
      | .error e => ([.devWrite p, .devFlush], some e)
      | .ok _ =>
        let r := streamPackets env ps
        (.devWrite p :: .devFlush :: r.1, r.2)

/-- One iteration of the interactive loop body, given the 128-byte buffer
contents before the read and the bytes the read delivered (which overwrite the
buffer's prefix): skip empty reads; `break` if the buffer contains byte 3;
otherwise decode the chunk — on failure print a diagnostic and continue, on
success echo, flush, encode (propagating encoding errors as I/O errors via
`?`) and stream the packets. -/
def relayStep (env : Env) (registry : Registry) (layoutName : String)
    (buf bytes : List Byte) : StepResult :=
  if bytes.length = 0 then .cont buf []
  else if (bytes ++ buf.drop bytes.length).contains 3 then .brk
  else
    match utf8Decode bytes with
    | none => .cont (bytes ++ buf.drop bytes.length)
        [.decodeDiag (bytes ++ buf.drop bytes.length)]
    | some chars =>
      match env.termWriteRes bytes with
      | .error e => .fatal e [.echo bytes]
      | .ok _ =>
        match env.termFlushRes with
        | .error e => .fatal e [.echo bytes, .echoFlush]
        | .ok _ =>
          match string_to_hid_packets registry layoutName (String.mk chars) with
          | .error e => .fatal (.encodeFailed e) [.echo bytes, .echoFlush]
          | .ok hidBytes =>
            let s := streamPackets env (chunksOf HID_PACKET_LEN hidBytes)
            match s.2 with
            | some e => .fatal e ([.echo bytes, .echoFlush] ++ s.1)
            | none => .cont (bytes ++ buf.drop bytes.length)
                ([.echo bytes, .echoFlush] ++ s.1)

/-- The interactive `while let Ok(n) = stdin.read(&mut buf)` loop, fed the
successive results of the reads, threading the 128-byte buffer. -/
def relayLoop (env : Env) (registry : Registry) (layoutName : String) :
    List (Except IOErr (List Byte)) → List Byte → List Event × LoopExit
  | [], _ => ([], .blocked)
  | .error _ :: _, _ => ([], .readEnd)
  | .ok bytes :: rest, buf =>
    match relayStep env registry layoutName buf bytes with
    | .brk => ([], .brk)
    | .fatal e evs => (evs, .fatal e)
    | .cont buf' evs =>
      let r := relayLoop env registry layoutName rest buf'
      (evs ++ r.1, r.2)

/-- The initial interactive buffer: `let mut buf = [0u8; 128]`. -/
def zeroBuf : List Byte := List.replicate 128 0

/-- The interactive branch of `main`: announce, open the device file, enable
raw mode, run the relay loop, and disable raw mode — the disable runs only
when the loop exits normally (Ctrl-C `break` or read `Err`); an error
propagating out of the loop via `?` returns from `main` without reaching it. -/
def interactiveRun (env : Env) (registry : Registry) (layoutName : String)
    (reads : List (Except IOErr (List Byte))) : List Event × Outcome :=
  match env.openRes with
  | .error e => ([.diagReading, .openHid], .err e)
  | .ok _ =>
    match relayLoop env registry layoutName reads zeroBuf with
    | (evs, .brk) => ([.diagReading, .openHid, .enableRaw] ++ evs ++ [.disableRaw], .ok)
    | (evs, .readEnd) => ([.diagReading, .openHid, .enableRaw] ++ evs ++ [.disableRaw], .ok)
    | (evs, .fatal e) => ([.diagReading, .openHid, .enableRaw] ++ evs, .err e)
    | (evs, .blocked) => ([.diagReading, .openHid, .enableRaw] ++ evs, .blocked)

/-- The batch packet loop: for each packet, `fs::write(&hid_file, packet)?`
then `thread::sleep(Duration::from_millis(cooldown))` — the sleep runs after
every packet, the last included. -/
def batchWriteLoop (env : Env) (cooldown : Nat) :
    List (List Byte) → List Event × Outcome
  | [] => ([], .ok)
  | p :: ps =>
    match env.fsWriteRes p with
    | .error e => ([.fsWrite p], .err e)
    | .ok _ =>
      let r := batchWriteLoop env cooldown ps
      (.fsWrite p :: .sleepMillis cooldown :: r.1, r.2)

/-- The batch branch of `main`: append a newline if requested, encode the whole
string (an encoding error returns from `main` before any sleep or write),
sleep the start delay once, then run the packet loop. -/
def batchRun (env : Env) (registry : Registry) (layoutName : String)
    (newline : Bool) (delay cooldown : Nat) (s : String) : List Event × Outcome :=
  match string_to_hid_packets registry layoutName
      (if newline then s.push '\n' else s) with
  | .error e => ([], .err (.encodeFailed e))
  | .ok hidBytes =>
    (.sleepSecs delay ::
       (batchWriteLoop env cooldown (chunksOf HID_PACKET_LEN hidBytes)).1,
     (batchWriteLoop env cooldown (chunksOf HID_PACKET_LEN hidBytes)).2)

/-- The parsed command-line options (`struct CliOpt`). -/
structure CliOpt where
  hid_file : Option String
  layout : String
  newline : Bool
  delay : Nat
  cooldown : Nat
  string : Option String

/-- Rust's `str::to_lowercase`, modelled as per-character ASCII lowercasing.
(Rust lowercases the full Unicode range, but the only characters whose Rust
lowercase is one of `l`, `i`, `s`, `t` are their ASCII upper/lower-case forms,
so the two functions agree on whether a string lowercases to `"list"`.) -/
def to_lowercase (s : String) : String :=
  String.mk (s.data.map Char.toLower)

/-- `main`: if the layout argument lowercases to `"list"`, print the available
layouts and return `Ok(())`; otherwise run batch mode when a string argument is
present, interactive mode when it is absent. -/
def mainRun (env : Env) (registry : Registry) (opts : CliOpt)
    (reads : List (Except IOErr (List Byte))) : List Event × Outcome :=
  if to_lowercase opts.layout = "list" then ([.printLayouts], .ok)
  else
    match opts.string with
    | some s =>
      batchRun env registry opts.layout opts.newline opts.delay opts.cooldown s
    | none => interactiveRun env registry opts.layout reads

/-- Is the event a sleep (of either kind)? -/
def isSleep : Event → Bool
  | .sleepSecs _ => true
  | .sleepMillis _ => true
  | _ => false

/-- Is the event an interactive device write? -/
def isDevWrite : Event → Bool
  | .devWrite _ => true
  | _ => false

/-- Is the event a batch device write? -/
def isFsWrite : Event → Bool
  | .fsWrite _ => true
  | _ => false

/-- Is the event a local echo? -/
def isEcho : Event → Bool
  | .echo _ => true
  | _ => false

/-- Post-compose the counts returned by the environment's two byte-counting
write calls with `f`, leaving everything else unchanged. -/
def mapWriteCount (f : Nat → Nat) (env : Env) : Env :=
  { env with
    termWriteRes := fun bs => (env.termWriteRes bs).map f
    hidWriteRes := fun bs => (env.hidWriteRes bs).map f }

/-- Test fixture: a small layout table defining `h`, `i` and newline (their
standard HID usage IDs), and nothing else. -/
def testTable : LayoutTable := fun c =>
  if c = 'h' then some (0, 0x0B)
  else if c = 'i' then some (0, 0x0C)
  else if c = '\n' then some (0, 0x28)
  else none

/-- Test fixture: a registry with the single layout `"L"`. -/
def testRegistry : Registry := fun name =>
  if name = "L" then some testTable else none

/-- Test fixture: an environment in which every I/O call succeeds and every
write accepts all its bytes. -/
def envOk : Env :=
  { fsWriteRes := fun _ => .ok ()
    openRes := .ok ()
    termWriteRes := fun bs => .ok bs.length
    termFlushRes := .ok ()
    hidWriteRes := fun bs => .ok bs.length
    hidFlushRes := .ok () }

/-- Test fixture: like `envOk`, except that every device write is a short
write — the sink reports having accepted 0 of the bytes passed, without
raising an error. -/
def envShort : Env :=
  { fsWriteRes := fun _ => .ok ()
    openRes := .ok ()
    termWriteRes := fun bs => .ok bs.length
    termFlushRes := .ok ()
    hidWriteRes := fun _ => .ok 0
    hidFlushRes := .ok () }

/-! ### Basic lemmas about the model's building blocks -/

theorem contains_iff_mem (l : List Byte) (a : Byte) :
    l.contains a = true ↔ a ∈ l :=
  List.elem_iff

theorem chunksOfFuel_nil (k f : Nat) : chunksOfFuel k f [] = [] := by
  cases f <;> rfl

theorem chunksOfFuel_congr (k : Nat) (hk : k ≠ 0) :
    ∀ (f₁ f₂ : Nat) (l : List Byte), l.length ≤ f₁ → l.length ≤ f₂ →
      chunksOfFuel k f₁ l = chunksOfFuel k f₂ l := by
  intro f₁
  induction f₁ with
  | zero =>
    intro f₂ l h₁ _
    have : l = [] := List.length_eq_zero.mp (Nat.le_zero.mp h₁)
    subst this
    rw [chunksOfFuel_nil, chunksOfFuel_nil]
  | succ f ih =>
    intro f₂ l h₁ h₂
    cases l with
    | nil => rw [chunksOfFuel_nil, chunksOfFuel_nil]
    | cons x xs =>
      cases f₂ with
      | zero => exact absurd h₂ (by simp)
      | succ g =>
        show (x :: xs).take k :: chunksOfFuel k f ((x :: xs).drop k) =
          (x :: xs).take k :: chunksOfFuel k g ((x :: xs).drop k)
        have hdroplen : ((x :: xs).drop k).length ≤ xs.length := by
          rw [List.length_drop]
          have hk1 : 1 ≤ k := Nat.one_le_iff_ne_zero.mpr hk
          calc (x :: xs).length - k ≤ (x :: xs).length - 1 :=
                Nat.sub_le_sub_left hk1 _
            _ = xs.length := by simp
        have h₁' : ((x :: xs).drop k).length ≤ f :=
          le_trans hdroplen (Nat.lt_succ_iff.mp (lt_of_lt_of_le (by simp) h₁))
        have h₂' : ((x :: xs).drop k).length ≤ g :=
          le_trans hdroplen (Nat.lt_succ_iff.mp (lt_of_lt_of_le (by simp) h₂))
        rw [ih _ _ h₁' h₂']

theorem chunksOf_nil (k : Nat) : chunksOf k [] = [] := by
  unfold chunksOf
  split
  · rfl
  · exact chunksOfFuel_nil _ _

theorem chunksOf_cons (k : Nat) (hk : k ≠ 0) (l : List Byte) (hl : l ≠ []) :
    chunksOf k l = l.take k :: chunksOf k (l.drop k) := by
  unfold chunksOf
  rw [if_neg hk, if_neg hk]
  cases l with
  | nil => exact absurd rfl hl
  | cons x xs =>
    show (x :: xs).take k :: chunksOfFuel k xs.length ((x :: xs).drop k) =
      (x :: xs).take k :: chunksOfFuel k ((x :: xs).drop k).length ((x :: xs).drop k)
    have hdroplen : ((x :: xs).drop k).length ≤ xs.length := by
      rw [List.length_drop]
      have hk1 : 1 ≤ k := Nat.one_le_iff_ne_zero.mpr hk
      calc (x :: xs).length - k ≤ (x :: xs).length - 1 := Nat.sub_le_sub_left hk1 _
        _ = xs.length := by simp
    rw [chunksOfFuel_congr k hk xs.length ((x :: xs).drop k).length _ hdroplen le_rfl]

theorem chunksOf_length_eight :
    ∀ (n : Nat) (l : List Byte), l.length = 8 * n →
      ∀ c ∈ chunksOf 8 l, c.length = 8 := by
  intro n
  induction n with
  | zero =>
    intro l hl c hc
    have : l = [] := List.length_eq_zero.mp (by simpa using hl)
    subst this
    rw [chunksOf_nil] at hc
    exact absurd hc (by simp)
  | succ m ih =>
    intro l hl c hc
    have hlen : l.length = 8 * m + 8 := by omega
    have hne : l ≠ [] := by
      intro h
      subst h
      simp at hlen
    rw [chunksOf_cons 8 (by decide) l hne] at hc
    rcases List.mem_cons.mp hc with h | h
    · subst h
      rw [List.length_take]
      omega
    · exact ih (l.drop 8) (by rw [List.length_drop]; omega) c h

theorem encodeChars_length (table : LayoutTable) :
    ∀ (cs : List Char) (pos : Nat) (l : List Byte),
      encodeChars table cs pos = .ok l → l.length = 16 * cs.length := by
  intro cs
  induction cs with
  | nil =>
    intro pos l h
    simp only [encodeChars] at h
    cases h
    rfl
  | cons c cs ih =>
    intro pos l h
    simp only [encodeChars] at h
    cases htab : table c with
    | none => rw [htab] at h; exact absurd h (by simp)
    | some kc =>
      rw [htab] at h
      cases henc : encodeChars table cs (pos + 1) with
      | error e => rw [henc] at h; exact absurd h (by simp [Except.map])
      | ok l' =>
        rw [henc] at h
        simp only [Except.map] at h
        cases h
        have hlen := ih (pos + 1) l' henc
        simp only [List.length_append, pressReport, releaseReport,
          List.length_cons, List.length, List.append_eq, hlen]
        omega

theorem string_to_hid_packets_length (reg : Registry) (nm : String) (t : String)
    (l : List Byte) (h : string_to_hid_packets reg nm t = .ok l) :
    l.length = 16 * t.data.length := by
  unfold string_to_hid_packets at h
  cases hreg : reg nm with
  | none => rw [hreg] at h; exact absurd h (by simp)
  | some table => rw [hreg] at h; exact encodeChars_length table t.data 0 l h

theorem streamPackets_events (env : Env) :
    ∀ (ps : List (List Byte)) (ev : Event), ev ∈ (streamPackets env ps).1 →
      ev = .devFlush ∨ ∃ bs, bs ∈ ps ∧ ev = .devWrite bs := by
  intro ps
  induction ps with
  | nil => intro ev hev; exact absurd hev (by simp [streamPackets])
  | cons p ps ih =>
    intro ev hev
    unfold streamPackets at hev
    cases hw : env.hidWriteRes p with
    | error e =>
      rw [hw] at hev
      simp only [List.mem_singleton] at hev
      exact .inr ⟨p, by simp, hev⟩
    | ok k =>
      rw [hw] at hev
      cases hf : env.hidFlushRes with
      | error e =>
        rw [hf] at hev
        rcases List.mem_cons.mp hev with h | h
        · exact .inr ⟨p, by simp, h⟩
        · simp only [List.mem_singleton] at h
          exact .inl h
      | ok u =>
        rw [hf] at hev
        rcases List.mem_cons.mp hev with h | h
        · exact .inr ⟨p, by simp, h⟩
        · rcases List.mem_cons.mp h with h' | h'
          · exact .inl h'
          · rcases ih ev h' with h'' | ⟨bs, hbs, h''⟩
            · exact .inl h''
            · exact .inr ⟨bs, by simp [hbs], h''⟩

/-- Every event a loop-body step emits is an echo of the chunk's bytes, an
echo flush, a device flush, a decode diagnostic, or a device write of exactly
`HID_PACKET_LEN` bytes. -/
theorem relayStep_events (env : Env) (reg : Registry) (nm : String)
    (buf bytes : List Byte) (ev : Event)
    (hev : ev ∈ (relayStep env reg nm buf bytes).events) :
    (∃ b, ev = .decodeDiag b) ∨ ev = .echo bytes ∨ ev = .echoFlush ∨
      ev = .devFlush ∨ ∃ bs, ev = .devWrite bs ∧ bs.length = HID_PACKET_LEN := by
  unfold relayStep at hev
  by_cases h0 : bytes.length = 0
  · rw [if_pos h0] at hev
    exact absurd hev (by simp [StepResult.events])
  · rw [if_neg h0] at hev
    by_cases h3 : (bytes ++ buf.drop bytes.length).contains 3 = true
    · rw [if_pos h3] at hev
      exact absurd hev (by simp [StepResult.events])
    · rw [if_neg h3] at hev
      cases hdec : utf8Decode bytes with
      | none =>
        simp only [hdec, StepResult.events, List.mem_singleton] at hev
        exact .inl ⟨_, hev⟩
      | some chars =>
        simp only [hdec] at hev
        cases htw : env.termWriteRes bytes with
        | error e =>
          simp only [htw, StepResult.events, List.mem_singleton] at hev
          exact .inr (.inl hev)
        | ok k =>
          simp only [htw] at hev
          cases htf : env.termFlushRes with
          | error e =>
            simp only [htf, StepResult.events, List.mem_cons, List.mem_singleton,
              List.not_mem_nil, or_false] at hev
            rcases hev with h | h
            · exact .inr (.inl h)
            · exact .inr (.inr (.inl h))
          | ok u =>
            simp only [htf] at hev
            cases henc : string_to_hid_packets reg nm (String.mk chars) with
            | error e =>
              simp only [henc, StepResult.events, List.mem_cons, List.mem_singleton,
                List.not_mem_nil, or_false] at hev
              rcases hev with h | h
              · exact .inr (.inl h)
              · exact .inr (.inr (.inl h))
            | ok hidBytes =>
              simp only [henc] at hev
              have hstream : ∀ ev', ev' ∈ (streamPackets env
                  (chunksOf HID_PACKET_LEN hidBytes)).1 →
                  ev' = Event.devFlush ∨
                    ∃ bs, ev' = Event.devWrite bs ∧ bs.length = HID_PACKET_LEN := by
                intro ev' hev'
                rcases streamPackets_events env _ ev' hev' with h | ⟨bs, hbs, h⟩
                · exact .inl h
                · refine .inr ⟨bs, h, ?_⟩
                  have hlen : hidBytes.length = 16 * chars.length :=
                    string_to_hid_packets_length reg nm (String.mk chars) hidBytes henc
                  exact chunksOf_length_eight (2 * chars.length) hidBytes
                    (by rw [hlen]; ring) bs hbs
              cases hs : (streamPackets env (chunksOf HID_PACKET_LEN hidBytes)).2 with
              | some e =>
                simp only [hs, StepResult.events, List.cons_append, List.nil_append,
                  List.mem_cons] at hev
                rcases hev with h | h | h
                · exact .inr (.inl h)
                · exact .inr (.inr (.inl h))
                · rcases hstream ev h with h' | ⟨bs, h', hl⟩
                  · exact .inr (.inr (.inr (.inl h')))
                  · exact .inr (.inr (.inr (.inr ⟨bs, h', hl⟩)))
              | none =>
                simp only [hs, StepResult.events, List.cons_append, List.nil_append,
                  List.mem_cons] at hev
                rcases hev with h | h | h
                · exact .inr (.inl h)
                · exact .inr (.inr (.inl h))
                · rcases hstream ev h with h' | ⟨bs, h', hl⟩
                  · exact .inr (.inr (.inr (.inl h')))
                  · exact .inr (.inr (.inr (.inr ⟨bs, h', hl⟩)))

/-- Every event the relay loop emits is a decode diagnostic, an echo, an echo
flush, a device flush, or a device write of exactly `HID_PACKET_LEN` bytes —
in particular never a raw-mode transition and never a sleep. -/
theorem relayLoop_events (env : Env) (reg : Registry) (nm : String) :
    ∀ (reads : List (Except IOErr (List Byte))) (buf : List Byte) (ev : Event),
      ev ∈ (relayLoop env reg nm reads buf).1 →
      (∃ b, ev = .decodeDiag b) ∨ (∃ b, ev = .echo b) ∨ ev = .echoFlush ∨
        ev = .devFlush ∨ ∃ bs, ev = .devWrite bs ∧ bs.length = HID_PACKET_LEN := by
  intro reads
  induction reads with
  | nil => intro buf ev hev; exact absurd hev (by simp [relayLoop])
  | cons r rest ih =>
    intro buf ev hev
    cases r with
    | error e => exact absurd hev (by simp [relayLoop])
    | ok bytes =>
      unfold relayLoop at hev
      cases hstep : relayStep env reg nm buf bytes with
      | brk => rw [hstep] at hev; exact absurd hev (by simp)
      | fatal e evs =>
        rw [hstep] at hev
        have : ev ∈ (relayStep env reg nm buf bytes).events := by
          rw [hstep]; exact hev
        rcases relayStep_events env reg nm buf bytes ev this with h | h | h | h | h
        · exact .inl h
        · exact .inr (.inl ⟨bytes, h⟩)
        · exact .inr (.inr (.inl h))
        · exact .inr (.inr (.inr (.inl h)))
        · exact .inr (.inr (.inr (.inr h)))
      | cont buf' evs =>
        rw [hstep] at hev
        rcases List.mem_append.mp hev with h | h
        · have : ev ∈ (relayStep env reg nm buf bytes).events := by
            rw [hstep]; exact h
          rcases relayStep_events env reg nm buf bytes ev this with h' | h' | h' | h' | h'
          · exact .inl h'
          · exact .inr (.inl ⟨bytes, h'⟩)
          · exact .inr (.inr (.inl h'))
          · exact .inr (.inr (.inr (.inl h')))
          · exact .inr (.inr (.inr (.inr h')))
        · exact ih buf' ev h

theorem streamPackets_mapWriteCount (f : Nat → Nat) (env : Env) :
    ∀ ps : List (List Byte),
      streamPackets (mapWriteCount f env) ps = streamPackets env ps := by
  intro ps
  induction ps with
  | nil => rfl
  | cons p ps ih =>
    unfold streamPackets
    have hw' : (mapWriteCount f env).hidWriteRes p = (env.hidWriteRes p).map f := rfl
    have hf' : (mapWriteCount f env).hidFlushRes = env.hidFlushRes := rfl
    rw [hw', hf', ih]
    cases hw : env.hidWriteRes p with
    | error e => simp only [Except.map]
    | ok k => simp only [Except.map]

theorem relayStep_mapWriteCount (f : Nat → Nat) (env : Env) (reg : Registry)
    (nm : String) (buf bytes : List Byte) :
    relayStep (mapWriteCount f env) reg nm buf bytes =
      relayStep env reg nm buf bytes := by
  unfold relayStep
  by_cases h0 : bytes.length = 0
  · rw [if_pos h0, if_pos h0]
  · rw [if_neg h0, if_neg h0]
    by_cases h3 : (bytes ++ buf.drop bytes.length).contains 3 = true
    · rw [if_pos h3, if_pos h3]
    · rw [if_neg h3, if_neg h3]
      cases hdec : utf8Decode bytes with
      | none => simp only [hdec]
      | some chars =>
        have htw : (mapWriteCount f env).termWriteRes bytes =
            (env.termWriteRes bytes).map f := rfl
        simp only [hdec, htw]
        cases hw : env.termWriteRes bytes with
        | error e => simp only [Except.map]
        | ok k =>
          simp only [Except.map]
          have htf : (mapWriteCount f env).termFlushRes = env.termFlushRes := rfl
          rw [htf]
          cases hf : env.termFlushRes with
          | error e => simp only []
          | ok u =>
            simp only []
            cases henc : string_to_hid_packets reg nm (String.mk chars) with
            | error e => simp only [henc]
            | ok hidBytes =>
              simp only [henc, streamPackets_mapWriteCount f env]

theorem relayLoop_mapWriteCount (f : Nat → Nat) (env : Env) (reg : Registry)
    (nm : String) :
    ∀ (reads : List (Except IOErr (List Byte))) (buf : List Byte),
      relayLoop (mapWriteCount f env) reg nm reads buf =
        relayLoop env reg nm reads buf := by
  intro reads
  induction reads with
  | nil => intro buf; rfl
  | cons r rest ih =>
    intro buf
    cases r with
    | error e => rfl
    | ok bytes =>
      unfold relayLoop
      rw [relayStep_mapWriteCount]
      cases relayStep env reg nm buf bytes with
      | brk => rfl
      | fatal e evs => rfl
      | cont buf' evs => simp only [ih buf']

/-- The interactive relay's entire observable behavior is unchanged when the
byte counts returned by successful `write` calls are post-composed with an
arbitrary function: the program discards those counts. -/
theorem interactiveRun_mapWriteCount (f : Nat → Nat) (env : Env)
    (reg : Registry) (nm : String) (reads : List (Except IOErr (List Byte))) :
    interactiveRun (mapWriteCount f env) reg nm reads =
      interactiveRun env reg nm reads := by
  unfold interactiveRun
  have ho : (mapWriteCount f env).openRes = env.openRes := rfl
  rw [ho]
  cases env.openRes with
  | error e => rfl
  | ok u => simp only [relayLoop_mapWriteCount]

theorem batchWriteLoop_ok (env : Env) (c : Nat) :
    ∀ ps : List (List Byte), (∀ p ∈ ps, env.fsWriteRes p = .ok ()) →
      batchWriteLoop env c ps =
        (ps.flatMap (fun p => [.fsWrite p, .sleepMillis c]), .ok) := by
  intro ps
  induction ps with
  | nil => intro _; rfl
  | cons p ps ih =>
    intro h
    unfold batchWriteLoop
    rw [h p (by simp)]
    rw [ih (fun q hq => h q (by simp [hq]))]
    simp [List.flatMap_cons]

theorem flatMap_count_sleepMillis (c : Nat) :
    ∀ ps : List (List Byte),
      (ps.flatMap (fun p => [Event.fsWrite p, Event.sleepMillis c])).count
        (Event.sleepMillis c) = ps.length := by
  intro ps
  induction ps with
  | nil => rfl
  | cons p ps ih =>
    simp only [List.flatMap_cons, List.cons_append, List.nil_append,
      List.count_cons, ih, List.length_cons]
    simp [List.count_cons]

theorem batchWriteLoop_events (env : Env) (c : Nat) :
    ∀ (ps : List (List Byte)) (ev : Event), ev ∈ (batchWriteLoop env c ps).1 →
      ev = .sleepMillis c ∨ ∃ p, p ∈ ps ∧ ev = .fsWrite p := by
  intro ps
  induction ps with
  | nil => intro ev hev; exact absurd hev (by simp [batchWriteLoop])
  | cons p ps ih =>
    intro ev hev
    unfold batchWriteLoop at hev
    cases hw : env.fsWriteRes p with
    | error e =>
      simp only [hw, List.mem_singleton] at hev
      exact .inr ⟨p, by simp, hev⟩
    | ok u =>
      simp only [hw, List.mem_cons] at hev
      rcases hev with h | h | h
      · exact .inr ⟨p, by simp, h⟩
      · exact .inl h
      · rcases ih ev h with h' | ⟨q, hq, h'⟩
        · exact .inl h'
        · exact .inr ⟨q, by simp [hq], h'⟩

theorem relayStep_eq_of_decode_none (env : Env) (reg : Registry) (nm : String)
    (buf bytes : List Byte) (hn : bytes ≠ [])
    (h3 : (bytes ++ buf.drop bytes.length).contains 3 = false)
    (hdec : utf8Decode bytes = none) :
    relayStep env reg nm buf bytes =
      .cont (bytes ++ buf.drop bytes.length)
        [.decodeDiag (bytes ++ buf.drop bytes.length)] := by
  unfold relayStep
  rw [if_neg (by simpa using hn), if_neg (by rw [h3]; exact Bool.false_ne_true), hdec]

theorem relayStep_eq_of_encode_error (env : Env) (reg : Registry) (nm : String)
    (buf bytes : List Byte) (chars : List Char) (k : Nat) (e : EncErr)
    (hn : bytes ≠ [])
    (h3 : (bytes ++ buf.drop bytes.length).contains 3 = false)
    (hdec : utf8Decode bytes = some chars)
    (hw : env.termWriteRes bytes = .ok k)
    (hf : env.termFlushRes = .ok ())
    (henc : string_to_hid_packets reg nm (String.mk chars) = .error e) :
    relayStep env reg nm buf bytes =
      .fatal (.encodeFailed e) [.echo bytes, .echoFlush] := by
  unfold relayStep
  rw [if_neg (by simpa using hn), if_neg (by rw [h3]; exact Bool.false_ne_true)]
  simp only [hdec, hw, hf, henc]

theorem relayLoop_cons_of_fatal (env : Env) (reg : Registry) (nm : String)
    (bytes : List Byte) (rest : List (Except IOErr (List Byte)))
    (buf : List Byte) (e : IOErr) (evs : List Event)
    (h : relayStep env reg nm buf bytes = .fatal e evs) :
    relayLoop env reg nm (.ok bytes :: rest) buf = (evs, .fatal e) := by
  unfold relayLoop
  simp only [h]

theorem relayLoop_cons_of_cont (env : Env) (reg : Registry) (nm : String)
    (bytes : List Byte) (rest : List (Except IOErr (List Byte)))
    (buf buf' : List Byte) (evs : List Event)
    (h : relayStep env reg nm buf bytes = .cont buf' evs) :
    relayLoop env reg nm (.ok bytes :: rest) buf =
      (evs ++ (relayLoop env reg nm rest buf').1,
       (relayLoop env reg nm rest buf').2) := by
  simp only [relayLoop]
  simp only [h]

theorem relayLoop_cons_of_brk (env : Env) (reg : Registry) (nm : String)
    (bytes : List Byte) (rest : List (Except IOErr (List Byte)))
    (buf : List Byte)
    (h : relayStep env reg nm buf bytes = .brk) :
    relayLoop env reg nm (.ok bytes :: rest) buf = ([], .brk) := by
  unfold relayLoop
  simp only [h]

theorem interactiveRun_of_fatal (env : Env) (reg : Registry) (nm : String)
    (reads : List (Except IOErr (List Byte))) (evs : List Event) (e : IOErr)
    (ho : env.openRes = .ok ())
    (h : relayLoop env reg nm reads zeroBuf = (evs, .fatal e)) :
    interactiveRun env reg nm reads =
      ([.diagReading, .openHid, .enableRaw] ++ evs, .err e) := by
  unfold interactiveRun
  simp only [ho, h]

theorem interactiveRun_of_readEnd (env : Env) (reg : Registry) (nm : String)
    (reads : List (Except IOErr (List Byte))) (evs : List Event)
    (ho : env.openRes = .ok ())
    (h : relayLoop env reg nm reads zeroBuf = (evs, .readEnd)) :
    interactiveRun env reg nm reads =
      ([.diagReading, .openHid, .enableRaw] ++ evs ++ [.disableRaw], .ok) := by
  unfold interactiveRun
  simp only [ho, h]

/-- Every event of an interactive run is one of the prelude events, the
raw-mode disable, or a loop event (decode diagnostic, echo, echo flush, device
flush, or a device write of exactly `HID_PACKET_LEN` bytes). -/
theorem interactiveRun_events (env : Env) (reg : Registry) (nm : String)
    (reads : List (Except IOErr (List Byte))) (ev : Event)
    (hev : ev ∈ (interactiveRun env reg nm reads).1) :
    ev = .diagReading ∨ ev = .openHid ∨ ev = .enableRaw ∨ ev = .disableRaw ∨
      (∃ b, ev = .decodeDiag b) ∨ (∃ b, ev = .echo b) ∨ ev = .echoFlush ∨
      ev = .devFlush ∨ ∃ bs, ev = .devWrite bs ∧ bs.length = HID_PACKET_LEN := by
  unfold interactiveRun at hev
  split at hev
  · simp only [List.mem_cons, List.not_mem_nil, or_false] at hev
    tauto
  · split at hev
    · rename_i evs heq
      rcases List.mem_append.mp hev with h1 | h2
      · rcases List.mem_append.mp h1 with h3 | h4
        · simp only [List.mem_cons, List.not_mem_nil, or_false] at h3
          tauto
        · have := relayLoop_events env reg nm reads zeroBuf ev
            (by rw [heq]; exact h4)
          tauto
      · simp only [List.mem_singleton] at h2
        tauto
    · rename_i evs heq
      rcases List.mem_append.mp hev with h1 | h2
      · rcases List.mem_append.mp h1 with h3 | h4
        · simp only [List.mem_cons, List.not_mem_nil, or_false] at h3
          tauto
        · have := relayLoop_events env reg nm reads zeroBuf ev
            (by rw [heq]; exact h4)
          tauto
      · simp only [List.mem_singleton] at h2
        tauto
    · rename_i evs e heq
      rcases List.mem_append.mp hev with h1 | h2
      · simp only [List.mem_cons, List.not_mem_nil, or_false] at h1
        tauto
      · have := relayLoop_events env reg nm reads zeroBuf ev
          (by rw [heq]; exact h2)
        tauto
    · rename_i evs heq
      rcases List.mem_append.mp hev with h1 | h2
      · simp only [List.mem_cons, List.not_mem_nil, or_false] at h1
        tauto
      · have := relayLoop_events env reg nm reads zeroBuf ev
          (by rw [heq]; exact h2)
        tauto

/-! ### Claim theorems -/

/-- C8 (confirmed): in batch mode, if encoding the input string (with the
newline appended when requested) fails, `main` returns the error before any
event occurs — no sleep (start delay) and no write reach the device. -/
theorem c8_batch_encode_failure_no_output (env : Env) (reg : Registry)
    (nm : String) (nl : Bool) (d c : Nat) (s : String) (e : EncErr)
    (henc : string_to_hid_packets reg nm (if nl then s.push '\n' else s) = .error e) :
    batchRun env reg nm nl d c s = ([], .err (.encodeFailed e)) := by
  unfold batchRun
  simp only [henc]

/-- Witness for C8: encoding `"z"` against the test layout fails with
`UnsupportedCharacter('z', 0)` and the batch run produces no events. -/
theorem c8_batch_encode_failure_no_output_witness :
    batchRun envOk testRegistry "L" false 2 5 "z" =
      ([], .err (.encodeFailed (.unsupportedCharacter 'z' 0))) :=
  c8_batch_encode_failure_no_output envOk testRegistry "L" false 2 5 "z"
    (.unsupportedCharacter 'z' 0) (by decide)

/-- C9 (confirmed): in interactive mode, when a chunk's bytes are not valid
UTF-8 (and the buffer does not contain the Ctrl-C byte), the loop emits
exactly one decode diagnostic for that chunk — nothing is echoed and nothing
is streamed — and continues processing the remaining reads. -/
theorem c9_decode_failure_recoverable (env : Env) (reg : Registry) (nm : String)
    (buf bytes : List Byte) (rest : List (Except IOErr (List Byte)))
    (hn : bytes ≠ [])
    (h3 : (bytes ++ buf.drop bytes.length).contains 3 = false)
    (hdec : utf8Decode bytes = none) :
    relayLoop env reg nm (.ok bytes :: rest) buf =
      (.decodeDiag (bytes ++ buf.drop bytes.length) ::
         (relayLoop env reg nm rest (bytes ++ buf.drop bytes.length)).1,
       (relayLoop env reg nm rest (bytes ++ buf.drop bytes.length)).2) := by
  rw [relayLoop_cons_of_cont env reg nm bytes rest buf _ _
    (relayStep_eq_of_decode_none env reg nm buf bytes hn h3 hdec)]
  rfl

/-- Witness for C9: the invalid byte `0xFF` produces one decode diagnostic and
the loop goes on. -/
theorem c9_decode_failure_recoverable_witness :
    relayLoop envOk testRegistry "L" [.ok [255]] zeroBuf =
      (.decodeDiag ([255] ++ zeroBuf.drop 1) ::
         (relayLoop envOk testRegistry "L" [] ([255] ++ zeroBuf.drop 1)).1,
       (relayLoop envOk testRegistry "L" [] ([255] ++ zeroBuf.drop 1)).2) :=
  c9_decode_failure_recoverable envOk testRegistry "L" zeroBuf [255] []
    (by decide) (by decide) (by decide)

/-- C10 (confirmed): any layout argument whose lowercasing is `"list"` makes
`main` print the available layouts and return success immediately — nothing is
encoded and nothing is written, so no such name can ever select a layout. -/
theorem c10_list_case_insensitive (env : Env) (reg : Registry) (opts : CliOpt)
    (reads : List (Except IOErr (List Byte)))
    (h : to_lowercase opts.layout = "list") :
    mainRun env reg opts reads = ([.printLayouts], .ok) := by
  unfold mainRun
  rw [if_pos h]

/-- Witness for C10: layout argument `"LIST"` (even with a string argument
present) prints the layout list and succeeds, writing nothing. -/
theorem c10_list_case_insensitive_witness :
    mainRun envOk testRegistry
      { hid_file := none, layout := "LIST", newline := false, delay := 0,
        cooldown := 0, string := some "hi" } [] = ([.printLayouts], .ok) :=
  c10_list_case_insensitive envOk testRegistry
    { hid_file := none, layout := "LIST", newline := false, delay := 0,
      cooldown := 0, string := some "hi" } [] (by decide)

/-- Counterexample to C1: a decoded chunk (`"z"`) that fails to encode makes
the interactive run terminate with the encoding error — the error propagates
out of the loop instead of being reported and recovered — so the next chunk
(`"h"`) is never accepted: it is neither echoed nor processed in any way. -/
theorem c1_counterexample :
    (interactiveRun envOk testRegistry "L" [.ok [122], .ok [104]]).2 =
      .err (.encodeFailed (.unsupportedCharacter 'z' 0)) ∧
    (interactiveRun envOk testRegistry "L" [.ok [122], .ok [104]]).1.filter
      isDevWrite = [] ∧
    (interactiveRun envOk testRegistry "L" [.ok [122], .ok [104]]).1.count
      (.echo [104]) = 0 := by
  decide

/-- Counterexample to C2: the same failing-encode execution enables raw mode
and exits the process with an error while never disabling raw mode. -/
theorem c2_counterexample :
    Event.enableRaw ∈ (interactiveRun envOk testRegistry "L"
      [.ok [122], .ok [104]]).1 ∧
    Event.disableRaw ∉ (interactiveRun envOk testRegistry "L"
      [.ok [122], .ok [104]]).1 ∧
    (interactiveRun envOk testRegistry "L" [.ok [122], .ok [104]]).2 =
      .err (.encodeFailed (.unsupportedCharacter 'z' 0)) := by
  decide

/-- Counterexample to C3: with a configured cooldown of 7 ms, an interactive
chunk `"hi"` produces four device writes (press/release for each character)
but zero sleep events — no inter-report cooldown is observed. -/
theorem c3_counterexample :
    ((mainRun envOk testRegistry
        { hid_file := none, layout := "L", newline := false, delay := 0,
          cooldown := 7, string := none } [.ok [104, 105]]).1.filter
      isDevWrite).length = 4 ∧
    (mainRun envOk testRegistry
        { hid_file := none, layout := "L", newline := false, delay := 0,
          cooldown := 7, string := none } [.ok [104, 105]]).1.filter
      isSleep = [] := by
  decide

/-- Counterexample to C4: batch input `"h"` yields 2 reports but 2 cooldown
sleeps — one after every report, the last included — not the claimed N−1. -/
theorem c4_counterexample :
    (batchRun envOk testRegistry "L" false 0 5 "h").1.count (.sleepMillis 5) = 2 ∧
    ((batchRun envOk testRegistry "L" false 0 5 "h").1.filter isFsWrite).length = 2 ∧
    ¬ ((batchRun envOk testRegistry "L" false 0 5 "h").1.count (.sleepMillis 5) =
        ((batchRun envOk testRegistry "L" false 0 5 "h").1.filter
          isFsWrite).length - 1) := by
  decide

/-- Counterexample to C5: the chunk `"hi\x03"` contains the Ctrl-C byte, and
its non-terminal content `"hi"` (both characters supported by the layout) is
discarded outright — nothing is echoed and nothing is streamed before the
relay terminates. -/
theorem c5_counterexample :
    interactiveRun envOk testRegistry "L" [.ok [104, 105, 3]] =
      ([.diagReading, .openHid, .enableRaw, .disableRaw], .ok) ∧
    (interactiveRun envOk testRegistry "L" [.ok [104, 105, 3]]).1.filter
      isEcho = [] ∧
    (interactiveRun envOk testRegistry "L" [.ok [104, 105, 3]]).1.filter
      isDevWrite = [] := by
  decide

/-- Counterexample to C6: a failing stdin read ends the relay loop and the
process exits with success (`Ok(())`) — the I/O error is not propagated as a
failure (teardown does run). -/
theorem c6_counterexample :
    interactiveRun envOk testRegistry "L" [.error (.os 5)] =
      ([.diagReading, .openHid, .enableRaw, .disableRaw], .ok) := by
  decide

/-- Counterexample to C7: with a sink that accepts 0 of the 8 bytes of every
report (a short write reported as success), streaming is not aborted — the
second report is still written and the run continues without error. -/
theorem c7_counterexample :
    (interactiveRun envShort testRegistry "L" [.ok [104]]).2 = .blocked ∧
    (interactiveRun envShort testRegistry "L" [.ok [104]]).1.count
      (.devWrite releaseReport) = 1 ∧
    ((interactiveRun envShort testRegistry "L" [.ok [104]]).1.filter
      isDevWrite).length = 2 := by
  decide

/-- C1 (amended): in interactive mode, when a successfully decoded chunk fails
to encode (after a successful echo and flush), the encoding error is converted
to an I/O error and propagates out of the relay loop via `?`: the run
terminates with that error, nothing is streamed for the chunk (the chunk has
already been echoed), no diagnostic is printed for it, subsequent chunks are
never processed, and raw mode is not disabled. -/
theorem c1_amended_encode_failure_fatal (env : Env) (reg : Registry)
    (nm : String) (bytes : List Byte) (chars : List Char) (k : Nat) (e : EncErr)
    (rest : List (Except IOErr (List Byte)))
    (ho : env.openRes = .ok ())
    (hn : bytes ≠ [])
    (h3 : (bytes ++ zeroBuf.drop bytes.length).contains 3 = false)
    (hdec : utf8Decode bytes = some chars)
    (hw : env.termWriteRes bytes = .ok k)
    (hf : env.termFlushRes = .ok ())
    (henc : string_to_hid_packets reg nm (String.mk chars) = .error e) :
    interactiveRun env reg nm (.ok bytes :: rest) =
      ([.diagReading, .openHid, .enableRaw, .echo bytes, .echoFlush],
       .err (.encodeFailed e)) := by
  have hstep := relayStep_eq_of_encode_error env reg nm zeroBuf bytes chars k e
    hn h3 hdec hw hf henc
  have hloop := relayLoop_cons_of_fatal env reg nm bytes rest zeroBuf
    (.encodeFailed e) [.echo bytes, .echoFlush] hstep
  have hrun := interactiveRun_of_fatal env reg nm (.ok bytes :: rest)
    [.echo bytes, .echoFlush] (.encodeFailed e) ho hloop
  simpa using hrun

/-- Witness for C1 (amended): the chunk `"z"` decodes, echoes, and fails to
encode; the run ends with the converted encoding error and the following
chunk is never touched. -/
theorem c1_amended_encode_failure_fatal_witness :
    interactiveRun envOk testRegistry "L" [.ok [122], .ok [104]] =
      ([.diagReading, .openHid, .enableRaw, .echo [122], .echoFlush],
       .err (.encodeFailed (.unsupportedCharacter 'z' 0))) :=
  c1_amended_encode_failure_fatal envOk testRegistry "L" [122] ['z'] 1
    (.unsupportedCharacter 'z' 0) [.ok [104]] (by decide) (by decide)
    (by decide) (by decide) (by decide) (by decide) (by decide)

/-- C2 (amended): in interactive mode, raw mode is disabled exactly on the
executions whose outcome is success — i.e. those where the loop exited
normally via the Ctrl-C `break` or via a failed read; every execution that
terminates because an error propagates out of the loop (echo, device-write,
or encoding error) exits without disabling raw mode. -/
theorem c2_amended_disable_raw_iff_ok (env : Env) (reg : Registry) (nm : String)
    (reads : List (Except IOErr (List Byte))) :
    (interactiveRun env reg nm reads).2 = .ok ↔
      Event.disableRaw ∈ (interactiveRun env reg nm reads).1 := by
  have hnotin : Event.disableRaw ∉ (relayLoop env reg nm reads zeroBuf).1 := by
    intro hmem
    rcases relayLoop_events env reg nm reads zeroBuf _ hmem with
      ⟨b, h⟩ | ⟨b, h⟩ | h | h | ⟨bs, h, _⟩ <;> simp at h
  unfold interactiveRun
  split
  · simp
  · split
    · simp
    · simp
    · rename_i evs e heq
      constructor
      · intro h
        exact absurd h (by simp)
      · intro h
        rcases List.mem_append.mp h with h1 | h2
        · simp at h1
        · rw [heq] at hnotin
          exact absurd h2 hnotin
    · rename_i evs heq
      constructor
      · intro h
        exact absurd h (by simp)
      · intro h
        rcases List.mem_append.mp h with h1 | h2
        · simp at h1
        · rw [heq] at hnotin
          exact absurd h2 hnotin

/-- C3 (amended): in interactive mode, decoded chunks are streamed with no
delay at all — there is indeed no start delay, but there is also no
inter-report cooldown: no sleep event of either kind ever occurs in an
interactive run, whatever the configured cooldown. -/
theorem c3_amended_no_delays (env : Env) (reg : Registry) (nm : String)
    (reads : List (Except IOErr (List Byte))) :
    (interactiveRun env reg nm reads).1.filter isSleep = [] := by
  rw [List.filter_eq_nil_iff]
  intro a ha
  rcases interactiveRun_events env reg nm reads a ha with
    h | h | h | h | ⟨b, h⟩ | ⟨b, h⟩ | h | h | ⟨bs, h, _⟩ <;>
    subst h <;> simp [isSleep]

/-- C4 (amended): in batch mode the streamer waits the start delay once, then
for each report writes it and sleeps the cooldown — after every report, the
last included: exactly N cooldown sleeps occur for N reports, not N−1. -/
theorem c4_amended_sleep_after_every_report (env : Env) (reg : Registry)
    (nm : String) (nl : Bool) (d c : Nat) (s : String) (bytes : List Byte)
    (henc : string_to_hid_packets reg nm (if nl then s.push '\n' else s) = .ok bytes)
    (hw : ∀ p ∈ chunksOf HID_PACKET_LEN bytes, env.fsWriteRes p = .ok ()) :
    batchRun env reg nm nl d c s =
      (.sleepSecs d :: (chunksOf HID_PACKET_LEN bytes).flatMap
        (fun p => [.fsWrite p, .sleepMillis c]), .ok) ∧
    (batchRun env reg nm nl d c s).1.count (.sleepMillis c) =
      (chunksOf HID_PACKET_LEN bytes).length := by
  have h1 : batchRun env reg nm nl d c s =
      (.sleepSecs d :: (chunksOf HID_PACKET_LEN bytes).flatMap
        (fun p => [.fsWrite p, .sleepMillis c]), .ok) := by
    unfold batchRun
    simp only [henc]
    rw [batchWriteLoop_ok env c _ hw]
  refine ⟨h1, ?_⟩
  rw [h1]
  rw [List.count_cons, flatMap_count_sleepMillis]
  simp

/-- Witness for C4 (amended): batch input `"h"` gives 2 reports, the run's
trace has the cooldown sleep after each of the two writes. -/
theorem c4_amended_sleep_after_every_report_witness :
    batchRun envOk testRegistry "L" false 0 5 "h" =
      (.sleepSecs 0 :: (chunksOf HID_PACKET_LEN
          [0, 0, 11, 0, 0, 0, 0, 0, 0, 0, 0, 0, 0, 0, 0, 0]).flatMap
        (fun p => [.fsWrite p, .sleepMillis 5]), .ok) ∧
    (batchRun envOk testRegistry "L" false 0 5 "h").1.count (.sleepMillis 5) =
      (chunksOf HID_PACKET_LEN
        [0, 0, 11, 0, 0, 0, 0, 0, 0, 0, 0, 0, 0, 0, 0, 0]).length :=
  c4_amended_sleep_after_every_report envOk testRegistry "L" false 0 5 "h"
    [0, 0, 11, 0, 0, 0, 0, 0, 0, 0, 0, 0, 0, 0, 0, 0] (by decide) (by decide)

/-- A loop-body step can only `break` if the post-read buffer contains the
Ctrl-C byte. -/
theorem relayStep_ne_brk_of_no3 (env : Env) (reg : Registry) (nm : String)
    (buf bytes : List Byte)
    (h3 : (bytes ++ buf.drop bytes.length).contains 3 = false) :
    relayStep env reg nm buf bytes ≠ .brk := by
  intro hcontra
  unfold relayStep at hcontra
  by_cases h0 : bytes.length = 0
  · rw [if_pos h0] at hcontra
    exact StepResult.noConfusion hcontra
  · rw [if_neg h0, if_neg (by rw [h3]; exact Bool.false_ne_true)] at hcontra
    cases hdec : utf8Decode bytes with
    | none =>
      simp only [hdec] at hcontra
      exact StepResult.noConfusion hcontra
    | some chars =>
      simp only [hdec] at hcontra
      cases htw : env.termWriteRes bytes with
      | error e =>
        simp only [htw] at hcontra
        exact StepResult.noConfusion hcontra
      | ok k =>
        simp only [htw] at hcontra
        cases htf : env.termFlushRes with
        | error e =>
          simp only [htf] at hcontra
          exact StepResult.noConfusion hcontra
        | ok u =>
          simp only [htf] at hcontra
          cases henc : string_to_hid_packets reg nm (String.mk chars) with
          | error e =>
            simp only [henc] at hcontra
            exact StepResult.noConfusion hcontra
          | ok hb =>
            simp only [henc] at hcontra
            cases hs : (streamPackets env (chunksOf HID_PACKET_LEN hb)).2 with
            | some e =>
              simp only [hs] at hcontra
              exact StepResult.noConfusion hcontra
            | none =>
              simp only [hs] at hcontra
              exact StepResult.noConfusion hcontra

/-- C5 (amended): the relay transitions to Terminated exactly when the bytes
read in the current chunk contain the byte 3 (given the buffer holds no stale
byte 3, as is the case from the zero-initialized start as long as no earlier
chunk contained it) — but termination is immediate: the whole chunk is
discarded, with none of its non-terminal content decoded, echoed or
streamed. -/
theorem c5_amended_break_immediate_discard (env : Env) (reg : Registry)
    (nm : String) (buf bytes : List Byte)
    (rest : List (Except IOErr (List Byte)))
    (hbuf : buf.contains 3 = false) (hn : bytes ≠ []) :
    ((relayStep env reg nm buf bytes = .brk) ↔ bytes.contains 3 = true) ∧
    (bytes.contains 3 = true →
      relayLoop env reg nm (.ok bytes :: rest) buf = ([], .brk)) := by
  have hbrk : bytes.contains 3 = true → relayStep env reg nm buf bytes = .brk := by
    intro hb
    have hmem : (3 : Byte) ∈ bytes ++ buf.drop bytes.length :=
      List.mem_append.mpr (.inl ((contains_iff_mem bytes 3).mp hb))
    unfold relayStep
    rw [if_neg (by simpa using hn), if_pos ((contains_iff_mem _ 3).mpr hmem)]
  refine ⟨⟨?_, hbrk⟩, fun hb => relayLoop_cons_of_brk env reg nm bytes rest buf (hbrk hb)⟩
  intro hstep
  by_contra hnb
  have hnb' : (3 : Byte) ∉ bytes := fun hm => hnb ((contains_iff_mem bytes 3).mpr hm)
  have hnbuf : (3 : Byte) ∉ buf.drop bytes.length := by
    intro hm
    have hc : buf.contains 3 = true :=
      (contains_iff_mem buf 3).mpr (List.mem_of_mem_drop hm)
    rw [hbuf] at hc
    exact Bool.false_ne_true hc
  have h3 : (bytes ++ buf.drop bytes.length).contains 3 = false := by
    cases hc : (bytes ++ buf.drop bytes.length).contains 3 with
    | false => rfl
    | true =>
      rcases List.mem_append.mp ((contains_iff_mem _ 3).mp hc) with h | h
      · exact absurd h hnb'
      · exact absurd h hnbuf
  exact relayStep_ne_brk_of_no3 env reg nm buf bytes h3 hstep

/-- Witness for C5 (amended): the chunk `"hi\x03"`, read into the zeroed
buffer, breaks immediately and contributes no events. -/
theorem c5_amended_break_immediate_discard_witness :
    ((relayStep envOk testRegistry "L" zeroBuf [104, 105, 3] = .brk) ↔
      ([104, 105, 3] : List Byte).contains 3 = true) ∧
    (([104, 105, 3] : List Byte).contains 3 = true →
      relayLoop envOk testRegistry "L" [.ok [104, 105, 3]] zeroBuf = ([], .brk)) :=
  c5_amended_break_immediate_discard envOk testRegistry "L" zeroBuf
    [104, 105, 3] [] (by decide) (by decide)

/-- C6 (amended): a failure of the stdin read is not fatal: it merely
falsifies the `while let` pattern, ending the loop — raw-mode teardown runs
and the process exits successfully, without propagating the I/O error. -/
theorem c6_amended_read_failure_silent (env : Env) (reg : Registry)
    (nm : String) (reads : List (Except IOErr (List Byte))) (evs : List Event)
    (ho : env.openRes = .ok ())
    (hx : relayLoop env reg nm reads zeroBuf = (evs, .readEnd)) :
    (∀ (e : IOErr) (rest : List (Except IOErr (List Byte))) (buf : List Byte),
      relayLoop env reg nm (.error e :: rest) buf = ([], .readEnd)) ∧
    interactiveRun env reg nm reads =
      ([.diagReading, .openHid, .enableRaw] ++ evs ++ [.disableRaw], .ok) :=
  ⟨fun _ _ _ => rfl, interactiveRun_of_readEnd env reg nm reads evs ho hx⟩

/-- Witness for C6 (amended): a first-read failure ends the loop; the run's
trace ends with the raw-mode disable and the outcome is success. -/
theorem c6_amended_read_failure_silent_witness :
    (∀ (e : IOErr) (rest : List (Except IOErr (List Byte))) (buf : List Byte),
      relayLoop envOk testRegistry "L" (.error e :: rest) buf = ([], .readEnd)) ∧
    interactiveRun envOk testRegistry "L" [.error (.os 5)] =
      ([.diagReading, .openHid, .enableRaw] ++ [] ++ [.disableRaw], .ok) :=
  c6_amended_read_failure_silent envOk testRegistry "L" [.error (.os 5)] []
    (by decide) (by decide)

/-- C7 (amended): every write of a report passes exactly `HID_PACKET_LEN`
bytes in a single call (both the interactive `hid_file.write` and the batch
`fs::write`); however, a short write is not detected: the byte count returned
by a successful write is discarded, so the relay's entire behavior is
unchanged under any transformation of those counts. -/
theorem c7_amended_fixed_len_and_count_ignored (env : Env) (reg : Registry)
    (nm : String) (reads : List (Except IOErr (List Byte))) (f : Nat → Nat)
    (nl : Bool) (d c : Nat) (s : String) :
    (∀ bs, Event.devWrite bs ∈ (interactiveRun env reg nm reads).1 →
      bs.length = HID_PACKET_LEN) ∧
    (∀ bs, Event.fsWrite bs ∈ (batchRun env reg nm nl d c s).1 →
      bs.length = HID_PACKET_LEN) ∧
    interactiveRun (mapWriteCount f env) reg nm reads =
      interactiveRun env reg nm reads := by
  refine ⟨?_, ?_, interactiveRun_mapWriteCount f env reg nm reads⟩
  · intro bs hmem
    rcases interactiveRun_events env reg nm reads _ hmem with
      h | h | h | h | ⟨b, h⟩ | ⟨b, h⟩ | h | h | ⟨bs', h, hl⟩
    · exact absurd h (by simp)
    · exact absurd h (by simp)
    · exact absurd h (by simp)
    · exact absurd h (by simp)
    · exact absurd h (by simp)
    · exact absurd h (by simp)
    · exact absurd h (by simp)
    · exact absurd h (by simp)
    · cases h
      exact hl
  · intro bs hmem
    unfold batchRun at hmem
    split at hmem
    · exact absurd hmem (by simp)
    · rename_i hidBytes heq
      rcases List.mem_cons.mp hmem with h | h
      · exact absurd h (by simp)
      · rcases batchWriteLoop_events env c _ _ h with h' | ⟨p, hp, h'⟩
        · exact absurd h' (by simp)
        · cases h'
          have hlen := string_to_hid_packets_length reg nm _ hidBytes heq
          exact chunksOf_length_eight
            (2 * (if nl then s.push '\n' else s).data.length) hidBytes
            (by rw [hlen]; ring) bs hp

/-- Witness for C7 (amended): both the press and release reports written for
`"h"` are 8 bytes, and zeroing all returned write counts leaves the
interactive run unchanged. -/
theorem c7_amended_fixed_len_and_count_ignored_witness :
    (pressReport (0, 11)).length = HID_PACKET_LEN ∧
    releaseReport.length = HID_PACKET_LEN ∧
    interactiveRun (mapWriteCount (fun _ => 0) envOk) testRegistry "L"
        [.ok [104]] =
      interactiveRun envOk testRegistry "L" [.ok [104]] := by
  refine ⟨?_, ?_, (c7_amended_fixed_len_and_count_ignored envOk testRegistry "L"
      [.ok [104]] (fun _ => 0) false 0 0 "h").2.2⟩
  · exact (c7_amended_fixed_len_and_count_ignored envOk testRegistry "L"
      [.ok [104]] (fun _ => 0) false 0 0 "h").1 (pressReport (0, 11)) (by decide)
  · exact (c7_amended_fixed_len_and_count_ignored envOk testRegistry "L"
      [.ok [104]] (fun _ => 0) false 0 0 "h").2.1 releaseReport (by decide)

end Kbsim
